import Mathlib

/-!
Expanded-ensemble sampler `fix softcore/ee` (src/fix_softcore_ee.cpp)

A shallow embedding of `FixSoftcoreEE`: the constructor's argument checks, `init`,
`change_node`, and `end_of_step` (energy-grid read, node selection, broadcast, transition,
recomputation pipeline, logging), followed by theorems about them.

Conventions of the embedding.
* C arrays reached through a pointer (`energy`, `weight`, `lambdanode`, `P`) are functions
  `Nat → α` together with the array size; a read of the local array `P` outside its
  `gridsize` cells is undefined behaviour and makes the model return `none`.
* `double` is an arbitrary linearly ordered field `α`, and the C library functions the
  sampler calls (`exp`, the `printf` conversions) are parameters, so every definition is
  executable over `ℚ`; the theorems on the selection arithmetic take `α = ℝ` and
  `exp = Real.exp`.
* `for (k = lo; k < hi; k++) body` is `forLoop body lo (hi - lo)`.
-/

namespace FixSoftcoreEE

/-! ## Loops and the `MAX` macro -/

/-- The loop `for (k = lo; k < lo + n; k++) s = body k s`. -/
def forLoop {σ : Type} (body : Nat → σ → σ) (lo : Nat) : Nat → σ → σ
  | 0, s => s
  | n + 1, s => body (lo + n) (forLoop body lo n s)

/-- The host engine's macro `#define MAX(A,B) ((A) > (B) ? (A) : (B))`. -/
def MAX {α : Type} [LinearOrder α] (a b : α) : α := if a > b then a else b

/-! ## Energy grid (end_of_step, lines 197-206) -/

/-- `MPI_Allreduce(grid_energy, energy, gridsize, MPI_DOUBLE, MPI_SUM, world)`: every process
receives the sum, over the processes of `world`, of the local grids. -/
def allreduce_sum {α : Type} [Add α] [Zero α] (grids : List (Nat → α)) : Nat → α :=
  fun k => (grids.map (fun g => g k)).sum

/-- Lines 201-206: `if (tail_flag[0]) for (k < gridsize) energy[k] += etailnode[k]/volume`. -/
def add_tail {α : Type} [Field α] (tail_flag : Bool) (etailnode : Nat → α) (volume : α)
    (gridsize : Nat) (energy : Nat → α) : Nat → α :=
  if tail_flag then
    forLoop (fun k e => Function.update e k (e k + etailnode k / volume)) 0 gridsize energy
  else energy

/-! ## Node selection (end_of_step, lines 208-229) -/

/-- The locals `P`, `umax`, `usum` of `end_of_step`. -/
structure Selector (α : Type) where
  P : Nat → α
  umax : α
  usum : α

/-- Lines 209-215: `P[0] = minus_beta*energy[0] + weight[0]; umax = P[0];` then, for
`k = 1 .. gridsize-1`, `P[k] = minus_beta*energy[k] + weight[k]; umax = MAX(umax,P[k])`.
The cells of the uninitialised array `P` start at `0`; each cell below `gridsize` is written
before it is read. -/
def log_weights {α : Type} [LinearOrderedField α] (minus_beta : α) (energy weight : Nat → α)
    (gridsize : Nat) : Selector α :=
  let P0 : Nat → α := Function.update (fun _ => 0) 0 (minus_beta * energy 0 + weight 0)
  forLoop
    (fun k s =>
      let P := Function.update s.P k (minus_beta * energy k + weight k)
      { s with P := P, umax := MAX s.umax (P k) })
    1 (gridsize - 1) { P := P0, umax := P0 0, usum := 0 }

/-- Lines 216-220: `usum = 0.0; for (k < gridsize) { P[k] = exp(P[k]-umax); usum += P[k]; }`. -/
def exponentiate {α : Type} [LinearOrderedField α] (exp : α → α) (gridsize : Nat)
    (s : Selector α) : Selector α :=
  forLoop
    (fun k s =>
      let P := Function.update s.P k (exp (s.P k - s.umax))
      { s with P := P, usum := s.usum + P k })
    0 gridsize { s with usum := 0 }

/-- Line 221: `for (k < gridsize) P[k] /= usum`. -/
def normalize {α : Type} [LinearOrderedField α] (gridsize : Nat) (s : Selector α) :
    Selector α :=
  forLoop (fun k s => { s with P := Function.update s.P k (s.P k / s.usum) }) 0 gridsize s

/-- Lines 208-221 together: the state of `P`, `umax`, `usum` when the draw is made. -/
def selector {α : Type} [LinearOrderedField α] (exp : α → α) (minus_beta : α)
    (energy weight : Nat → α) (gridsize : Nat) : Selector α :=
  normalize gridsize (exponentiate exp gridsize (log_weights minus_beta energy weight gridsize))

/-- The selection probabilities `P[k]` of lines 208-221. -/
def probabilities {α : Type} [LinearOrderedField α] (exp : α → α) (minus_beta : α)
    (energy weight : Nat → α) (gridsize : Nat) : Nat → α :=
  (selector exp minus_beta energy weight gridsize).P

/-- The unnormalised log-weight `minus_beta*energy[k] + weight[k]` of node `k`. -/
def logw {α : Type} [LinearOrderedField α] (minus_beta : α) (energy weight : Nat → α)
    (k : Nat) : α :=
  minus_beta * energy k + weight k

/-- The argument `P[k]-umax` handed to `exp` in iteration `k` of the loop of lines 217-220:
the cells and `umax` as the `k` earlier iterations left them. -/
def exp_argument {α : Type} [LinearOrderedField α] (exp : α → α) (minus_beta : α)
    (energy weight : Nat → α) (gridsize k : Nat) : α :=
  let s := exponentiate exp k (log_weights minus_beta energy weight gridsize)
  s.P k - s.umax

/-- The C library functions the sampler applies to a `double`: `exp`, and the `printf`
conversions `"%18.16f"` and `"%g"`. -/
structure CLib (α : Type) where
  exp : α → α
  fmt_18_16f : α → String
  fmt_g : α → String

/-- The `printf` conversion `"%d"`. -/
def fmt_d (i : Int) : String := toString i

/-- Conversion of a `double` to `int`: the fractional part is discarded. -/
def to_int {α : Type} [LinearOrderedField α] [FloorRing α] (x : α) : Int :=
  if 0 ≤ x then ⌊x⌋ else ⌈x⌉

/-- Calls the sampler makes into the host engine and the pair style. -/
inductive Call where
  | modify_params (lambda_text : String)
  | reinit
  | force_clear
  | pair_compute
  | bond_compute
  | angle_compute
  | dihedral_compute
  | improper_compute
  | kspace_compute
  | reverse_comm
  | allreduce_energy_grid
  | pe_compute_scalar
  | pe_addstep (step : Int)
  deriving DecidableEq

/-- Fields of `FixSoftcoreEE`. `ee_file` is `none` for a `NULL` stream and otherwise holds
the text written so far; `lambda_arg3` is the text in the buffer `lambda_arg[3]`;
`downhill`, which the code only assigns `0` or the value of a comparison, is a `Bool`. -/
structure State (α : Type) where
  gridsize : Int
  nevery : Int
  acfreq : α
  seed : Int
  minus_beta : α
  idump : Int
  ee_file : Option String
  ratiocriteria : α
  weight : Nat → α
  lambdanode : Nat → α
  current_node : Int
  downhill : Bool
  lambda_arg3 : String

/-- What the sampler reads from the host engine during `end_of_step`. -/
structure Engine (α : Type) where
  ntimestep : Int
  laststep : Int
  pair_compute_flag : Bool
  molecular : Bool
  bond : Bool
  angle : Bool
  dihedral : Bool
  improper : Bool
  kspace_compute_flag : Bool
  newton : Bool
  tail_flag : Bool
  etailnode : Nat → α
  volume : α
  pe_scalar : α

/-! ## Constructor (lines 41-100) -/

/-- Lines 79-95: the keyword loop `while (iarg < narg)`, on the arguments from `arg[iarg]`
on. `numeric` is the host engine's `force->numeric`, which fails on text that is not a
number; `me` is `comm->me`. The result is `(idump, ee_file)`; `fopen` on rank 0 yields an
open, empty file. -/
def parse_keywords {α : Type} [LinearOrderedField α] [FloorRing α]
    (numeric : String → Option α) (me : Nat) :
    List String → Int × Option String → Except String (Int × Option String)
  | [], st => .ok st
  | kw :: rest, st =>
    if kw = "dump" then
      match rest with
      | a :: _path :: rest' =>
        match numeric a with
        | none => .error "Expected floating point parameter in input script or data file"
        | some v =>
          let idump := to_int v
          if idump ≤ 0 then .error "Illegal fix softcore/ee command"
          else parse_keywords numeric me rest'
                (idump, if me = 0 then some "" else st.2)
      | _ => .error "Illegal fix softcore/ee command"
    else .error "Illegal fix softcore/ee command"

/-- The constructor `FixSoftcoreEE::FixSoftcoreEE`. `pair_gridsize` is the value the pair
style publishes under `"gridsize"`, `boltz` is `force->boltz`, `arg` the `narg` words of the
`fix` command. `error->all` does not return: it is `Except.error`. The `double` read for
`nevery`, `seed` and `idump` is stored in an `int`. The fields set later by `init` start
at `0`; the registration of the `pe` compute is left out. -/
def construct {α : Type} [LinearOrderedField α] [FloorRing α]
    (numeric : String → Option α) (boltz : α) (me : Nat) (pair_gridsize : Int)
    (arg : List String) : Except String (State α) :=
  let narg := arg.length
  let gridsize := pair_gridsize
  if gridsize = 0 then .error "fix softcore/ee: no lambda grid defined"
  else if narg < 7 then .error "Illegal fix softcore/ee command"
  else
    match numeric (arg.getD 3 "") with
    | none => .error "Expected floating point parameter in input script or data file"
    | some v3 =>
      let nevery := to_int v3
      if nevery ≤ 0 then .error "Illegal fix softcore/ee command"
      else
        match numeric (arg.getD 4 "") with
        | none => .error "Expected floating point parameter in input script or data file"
        | some acfreq =>
          if acfreq ≤ 0 then .error "Illegal fix softcore/ee command"
          else
            match numeric (arg.getD 5 "") with
            | none => .error "Expected floating point parameter in input script or data file"
            | some v5 =>
              let seed := to_int v5
              if seed ≤ 0 then .error "Illegal fix softcore/ee command"
              else
                match numeric (arg.getD 6 "") with
                | none =>
                  .error "Expected floating point parameter in input script or data file"
                | some temperature =>
                  let minus_beta := -1 / (boltz * temperature)
                  match parse_keywords numeric me (arg.drop 7) (0, none) with
                  | .error msg => .error msg
                  | .ok (idump, ee_file) =>
                    .ok { gridsize := gridsize, nevery := nevery, acfreq := acfreq,
                          seed := seed, minus_beta := minus_beta, idump := idump,
                          ee_file := ee_file, ratiocriteria := 1 / acfreq,
                          weight := fun _ => 0, lambdanode := fun _ => 0,
                          current_node := 0, downhill := false, lambda_arg3 := "" }

/-! ## `change_node`, `init`, `compute_scalar` -/

/-- The function `FixSoftcoreEE::change_node` (lines 323-333); the second component lists
the calls made. `lambdanode[node]` is read at `node.toNat`. -/
def change_node {α : Type} (lib : CLib α) (node : Int) (s : State α) :
    State α × List Call :=
  let s := { s with current_node := node }
  let s := { s with lambda_arg3 := lib.fmt_18_16f (s.lambdanode node.toNat) }
  let calls := [Call.modify_params s.lambda_arg3, Call.reinit]
  let s :=
    if s.downhill then { s with downhill := decide (s.current_node ≠ 0) }
    else { s with downhill := decide (s.current_node = s.gridsize - 1) }
  (s, calls)

/-- A sequence of transitions: `change_node` applied to each node of the list in turn. -/
def change_nodes {α : Type} (lib : CLib α) (nodes : List Int) (s : State α) : State α :=
  nodes.foldl (fun s node => (change_node lib node s).1) s

/-- Size of the buffer `lambda_arg[3] = new char[18]` allocated by `init` (line 147). -/
def lambda_arg3_size : Nat := 18

/-- Lines 154-161 of `init`: the text written to `ee_file` when it is open. -/
def init_header (gridsize : Int) : String :=
  forLoop (fun k out => (out ++ (" energy[" ++ fmt_d k ++ "]")) ++ "\n") 0 gridsize.toNat
    "step node lambda downhill"

/-- The function `FixSoftcoreEE::init` (lines 122-163), without the echo of the weights to
the screen and the engine log. `pair_weight` and `pair_lambdanode` are the arrays the pair
style publishes. -/
def init {α : Type} (lib : CLib α) (pair_weight pair_lambdanode : Nat → α) (s : State α) :
    State α × List Call :=
  let s := { s with weight := pair_weight, lambdanode := pair_lambdanode }
  let (s, calls) := change_node lib 0 s
  let s := { s with downhill := false }
  let s :=
    match s.ee_file with
    | some text => { s with ee_file := some (text ++ init_header s.gridsize) }
    | none => s
  (s, calls)

/-- Lines 197-206 and 295-303: the energy grid a process holds after the reduction over
the local grids of all processes and the tail correction. -/
def read_energy_grid {α : Type} [LinearOrderedField α] (eng : Engine α) (gridsize : Int)
    (grids : List (Nat → α)) : Nat → α :=
  add_tail eng.tail_flag eng.etailnode eng.volume gridsize.toNat (allreduce_sum grids)

/-- Lines 309-315: the record appended to `ee_file`. -/
def log_record {α : Type} (lib : CLib α) (step : Int) (PE : α) (energy : Nat → α)
    (s : State α) : String :=
  forLoop (fun k out => out ++ (" " ++ lib.fmt_g (energy k))) 0 s.gridsize.toNat
    (fmt_d step ++ " " ++ fmt_d s.current_node ++ " "
      ++ lib.fmt_g (s.lambdanode s.current_node.toNat) ++ " "
      ++ fmt_d (if s.downhill then 1 else 0) ++ " " ++ lib.fmt_g PE)
    ++ "\n"

/-- Lines 253-303: the recomputation pipeline, as the list of calls it makes. -/
def recompute_calls {α : Type} (eng : Engine α) : List Call :=
  [Call.force_clear]
  ++ (if eng.pair_compute_flag then [Call.pair_compute] else [])
  ++ (if eng.molecular then
        (if eng.bond then [Call.bond_compute] else [])
        ++ (if eng.angle then [Call.angle_compute] else [])
        ++ (if eng.dihedral then [Call.dihedral_compute] else [])
        ++ (if eng.improper then [Call.improper_compute] else [])
      else [])
  ++ (if eng.kspace_compute_flag then [Call.kspace_compute] else [])
  ++ (if eng.newton then [Call.reverse_comm] else [])
  ++ [Call.allreduce_energy_grid]

/-- Lines 248-319: what a process does once `new_node` holds the broadcast value. `energy`
is the grid of lines 197-206 and `regrids` the local grids of all processes after the
recomputation. The result is the new state and the calls made. -/
def after_bcast {α : Type} [LinearOrderedField α] (lib : CLib α) (eng : Engine α)
    (energy : Nat → α) (regrids : List (Nat → α)) (new_node : Int) (s : State α) :
    State α × List Call :=
  let (s, energy, calls) :=
    if new_node ≠ s.current_node then
      let (s, calls) := change_node lib new_node s
      (s, read_energy_grid eng s.gridsize regrids, calls ++ recompute_calls eng)
    else (s, energy, [])
  let PE := eng.pe_scalar
  let calls := calls ++ [Call.pe_compute_scalar]
  let step := eng.ntimestep
  let s :=
    match s.ee_file with
    | some text =>
      if Int.tmod step s.idump = 0 then
        { s with ee_file := some (text ++ log_record lib step PE energy s) }
      else s
    | none => s
  let nextstep := eng.ntimestep + s.nevery
  let calls := if nextstep ≤ eng.laststep then calls ++ [Call.pe_addstep nextstep] else calls
  (s, calls)

/-- Rounding of a non-negative rational to the nearest integer, ties to the even one. -/
def round_half_even (t : ℚ) : Nat :=
  let f := ⌊t⌋.toNat
  let d := t - (f : ℚ)
  if d < 1 / 2 then f else if 1 / 2 < d then f + 1 else if f % 2 = 0 then f else f + 1

/-- Padding of `body` on the left with `fill` up to the field width `width`. -/
def pad_left (width : Nat) (fill : Char) (body : String) : String :=
  String.mk (List.replicate (width - body.length) fill) ++ body

/-- The text `printf` produces for `"%18.16f"`: sign, integer part, point and sixteen
decimals of the rounded value, padded with blanks on the left to eighteen characters. -/
def sprintf_18_16f (x : ℚ) : String :=
  let m := round_half_even (|x| * 10 ^ 16)
  let body := (if x < 0 then "-" else "") ++ String.mk (Nat.toDigits 10 (m / 10 ^ 16)) ++ "."
    ++ pad_left 16 '0' (String.mk (Nat.toDigits 10 (m % 10 ^ 16)))
  pad_left 18 ' ' body

/-- Bytes `sprintf` stores for a text: its characters and the terminating NUL. -/
def sprintf_bytes (text : String) : Nat := text.length + 1

/-! ## The three-node scenario -/

/-- Energies `[10, 0, 10]` of the three-node scenario. -/
def scenario_energy {α : Type} [LinearOrderedField α] : Nat → α :=
  fun k => [10, 0, 10].getD k 0

/-- Weights `[0, 0, 0]` of the three-node scenario. -/
def scenario_weight {α : Type} [LinearOrderedField α] : Nat → α :=
  fun k => [0, 0, 0].getD k 0

/-! ## Concrete inputs -/

/-- What `force->numeric` returns on the words of the `fix` command evaluated below. -/
def numeric_table (word : String) : Option ℚ :=
  if word = "10" then some 10
  else if word = "1.0" then some 1
  else if word = "12345" then some 12345
  else if word = "-300.0" then some (-300)
  else none

/-- The command `fix 1 all softcore/ee 10 1.0 12345 -300.0`: a negative temperature. -/
def negative_temperature_command : List String :=
  ["1", "all", "softcore/ee", "10", "1.0", "12345", "-300.0"]

/-- A sampler on the three-node ladder with coupling values `[0, 1/2, 1]`, at the node
`current_node`, with logging every fifth step. -/
def scenario_state {α : Type} [LinearOrderedField α] (current_node : Int)
    (ee_file : Option String) : State α :=
  { gridsize := 3, nevery := 1, acfreq := 1, seed := 12345, minus_beta := -1, idump := 5,
    ee_file := ee_file, ratiocriteria := 1, weight := scenario_weight,
    lambdanode := fun k => [0, 1 / 2, 1].getD k 0, current_node := current_node,
    downhill := false, lambda_arg3 := "" }

end FixSoftcoreEE

namespace FixSoftcoreEE

/-! ## Lemmas on the selection loops -/

section SelectorLemmas

variable {α : Type} [LinearOrderedField α]

theorem MAX_eq_max (a b : α) : MAX a b = max a b := by
  unfold MAX
  split_ifs with h
  · exact (max_eq_left (le_of_lt h)).symm
  · exact (max_eq_right (not_lt.mp h)).symm

/-- State of `P`, `umax`, `usum` after `n` iterations of the loop of lines 212-215. -/
theorem log_weights_loop (minus_beta : α) (energy weight : Nat → α) (n : Nat) :
    (∀ k, (log_weights minus_beta energy weight (n + 1)).P k
        = if k < n + 1 then logw minus_beta energy weight k else 0)
    ∧ (∀ k, k < n + 1 →
        logw minus_beta energy weight k ≤ (log_weights minus_beta energy weight (n + 1)).umax)
    ∧ (∃ k, k < n + 1 ∧
        logw minus_beta energy weight k = (log_weights minus_beta energy weight (n + 1)).umax)
    ∧ (log_weights minus_beta energy weight (n + 1)).usum = 0 := by
  induction n with
  | zero =>
    refine ⟨?_, ?_, ⟨0, by omega, ?_⟩, rfl⟩
    · intro k
      by_cases hk : k = 0
      · subst hk; simp [log_weights, forLoop, logw]
      · have : ¬ k < 1 := by omega
        simp [log_weights, forLoop, Function.update_noteq hk, this]
    · intro k hk
      have : k = 0 := by omega
      subst this
      simp [log_weights, forLoop, logw]
    · simp [log_weights, forLoop, logw]
  | succ n ih =>
    obtain ⟨hP, hle, ⟨j, hj, hjeq⟩, hsum⟩ := ih
    have hstep : log_weights minus_beta energy weight (n + 1 + 1)
        = { log_weights minus_beta energy weight (n + 1) with
            P := Function.update (log_weights minus_beta energy weight (n + 1)).P (1 + n)
                  (minus_beta * energy (1 + n) + weight (1 + n)),
            umax := MAX (log_weights minus_beta energy weight (n + 1)).umax
                  (minus_beta * energy (1 + n) + weight (1 + n)) } := by
      simp [log_weights, forLoop]
    rw [hstep]
    simp only [MAX_eq_max]
    refine ⟨?_, ?_, ?_, hsum⟩
    · intro k
      by_cases hk : k = 1 + n
      · subst hk
        have : 1 + n < n + 1 + 1 := by omega
        simp [logw, this]
      · rw [Function.update_noteq hk, hP k]
        by_cases hlt : k < n + 1
        · have : k < n + 1 + 1 := by omega
          simp [hlt, this]
        · have : ¬ k < n + 1 + 1 := by omega
          simp [hlt, this]
    · intro k hk
      by_cases hlt : k < n + 1
      · exact le_trans (hle k hlt) (le_max_left _ _)
      · have : k = 1 + n := by omega
        subst this
        exact le_max_right _ _
    · rcases le_total (log_weights minus_beta energy weight (n + 1)).umax
          (minus_beta * energy (1 + n) + weight (1 + n)) with h | h
      · exact ⟨1 + n, by omega, by rw [max_eq_right h]; rfl⟩
      · exact ⟨j, by omega, by rw [max_eq_left h]; exact hjeq⟩

/-- State after `n` iterations of the loop of lines 217-220. -/
theorem exponentiate_loop (exp : α → α) (s : Selector α) (n : Nat) :
    (∀ k, (exponentiate exp n s).P k = if k < n then exp (s.P k - s.umax) else s.P k)
    ∧ (exponentiate exp n s).umax = s.umax
    ∧ (exponentiate exp n s).usum = ∑ k in Finset.range n, exp (s.P k - s.umax) := by
  induction n with
  | zero => simp [exponentiate, forLoop]
  | succ n ih =>
    obtain ⟨hP, hmax, hsum⟩ := ih
    have hstep : exponentiate exp (n + 1) s
        = { exponentiate exp n s with
            P := Function.update (exponentiate exp n s).P n
                  (exp ((exponentiate exp n s).P n - (exponentiate exp n s).umax)),
            usum := (exponentiate exp n s).usum
                  + exp ((exponentiate exp n s).P n - (exponentiate exp n s).umax) } := by
      simp [exponentiate, forLoop]
    rw [hstep]
    have hPn : (exponentiate exp n s).P n = s.P n := by simp [hP n]
    refine ⟨?_, hmax, ?_⟩
    · intro k
      by_cases hk : k = n
      · subst hk; simp [hPn, hmax]
      · show Function.update (exponentiate exp n s).P n _ k = _
        rw [Function.update_noteq hk, hP k]
        by_cases hlt : k < n
        · have : k < n + 1 := by omega
          simp [hlt, this]
        · have : ¬ k < n + 1 := by omega
          simp [hlt, this]
    · show (exponentiate exp n s).usum + _ = _
      rw [hsum, hPn, hmax, Finset.sum_range_succ]

/-- State after `n` iterations of the loop of line 221. -/
theorem normalize_loop (s : Selector α) (n : Nat) :
    (∀ k, (normalize n s).P k = if k < n then s.P k / s.usum else s.P k)
    ∧ (normalize n s).umax = s.umax ∧ (normalize n s).usum = s.usum := by
  induction n with
  | zero => simp [normalize, forLoop]
  | succ n ih =>
    obtain ⟨hP, hmax, hsum⟩ := ih
    have hstep : normalize (n + 1) s
        = { normalize n s with
            P := Function.update (normalize n s).P n
                  ((normalize n s).P n / (normalize n s).usum) } := by
      simp [normalize, forLoop]
    rw [hstep]
    refine ⟨?_, hmax, hsum⟩
    intro k
    by_cases hk : k = n
    · subst hk; simp [hP k, hsum]
    · show Function.update (normalize n s).P n _ k = _
      rw [Function.update_noteq hk, hP k]
      by_cases hlt : k < n
      · have : k < n + 1 := by omega
        simp [hlt, this]
      · have : ¬ k < n + 1 := by omega
        simp [hlt, this]

/-- Closed form of the state at the draw, for a ladder of `n + 1` nodes. -/
theorem selector_closed (exp : α → α) (minus_beta : α) (energy weight : Nat → α) (n : Nat) :
    (selector exp minus_beta energy weight (n + 1)).umax
        = (log_weights minus_beta energy weight (n + 1)).umax
    ∧ (selector exp minus_beta energy weight (n + 1)).usum
        = ∑ j in Finset.range (n + 1), exp (logw minus_beta energy weight j
            - (log_weights minus_beta energy weight (n + 1)).umax)
    ∧ ∀ k, probabilities exp minus_beta energy weight (n + 1) k
        = if k < n + 1 then
            exp (logw minus_beta energy weight k
                - (log_weights minus_beta energy weight (n + 1)).umax)
              / ∑ j in Finset.range (n + 1), exp (logw minus_beta energy weight j
                  - (log_weights minus_beta energy weight (n + 1)).umax)
          else 0 := by
  obtain ⟨hP, -, -, -⟩ := log_weights_loop minus_beta energy weight n
  obtain ⟨eP, emax, esum⟩ :=
    exponentiate_loop exp (log_weights minus_beta energy weight (n + 1)) (n + 1)
  obtain ⟨nP, nmax, nsum⟩ :=
    normalize_loop (exponentiate exp (n + 1) (log_weights minus_beta energy weight (n + 1)))
      (n + 1)
  have hsum : (exponentiate exp (n + 1) (log_weights minus_beta energy weight (n + 1))).usum
      = ∑ j in Finset.range (n + 1), exp (logw minus_beta energy weight j
            - (log_weights minus_beta energy weight (n + 1)).umax) := by
    rw [esum]
    refine Finset.sum_congr rfl (fun j hj => ?_)
    rw [hP j, if_pos (Finset.mem_range.mp hj)]
  refine ⟨by unfold selector; rw [nmax, emax], by unfold selector; rw [nsum, hsum], ?_⟩
  intro k
  unfold probabilities selector
  rw [nP k, eP k, hsum, hP k]
  by_cases hk : k < n + 1
  · simp [hk]
  · simp [hk]

/-- The maximum found by lines 210-215 is the supremum of the log-weights over the ladder. -/
theorem log_weights_umax (minus_beta : α) (energy weight : Nat → α) (N : Nat)
    (hN : (Finset.range N).Nonempty) :
    (log_weights minus_beta energy weight N).umax
      = (Finset.range N).sup' hN (logw minus_beta energy weight) := by
  obtain ⟨n, rfl⟩ : ∃ n, N = n + 1 := by
    have : N ≠ 0 := by
      intro h; subst h; simp at hN
    exact ⟨N - 1, by omega⟩
  obtain ⟨-, hle, ⟨j, hj, hjeq⟩, -⟩ := log_weights_loop minus_beta energy weight n
  apply le_antisymm
  · rw [← hjeq]
    exact Finset.le_sup' (logw minus_beta energy weight) (Finset.mem_range.mpr hj)
  · exact Finset.sup'_le hN _ (fun k hk => hle k (Finset.mem_range.mp hk))

theorem exp_argument_eq (exp : α → α) (minus_beta : α) (energy weight : Nat → α)
    (n k : Nat) (hk : k < n + 1) :
    exp_argument exp minus_beta energy weight (n + 1) k
      = logw minus_beta energy weight k
          - (log_weights minus_beta energy weight (n + 1)).umax := by
  obtain ⟨hP, -, -, -⟩ := log_weights_loop minus_beta energy weight n
  obtain ⟨eP, emax, -⟩ :=
    exponentiate_loop exp (log_weights minus_beta energy weight (n + 1)) k
  unfold exp_argument
  simp only []
  rw [eP k, emax, if_neg (lt_irrefl k), hP k, if_pos hk]

end SelectorLemmas

/-! ## The selection arithmetic over the reals -/

section RealSelection

/-- Over the reals every shifted exponent is at most `0`, one of them is `0`, and the
normaliser lies between `1` and the ladder size. -/
theorem real_exponents (minus_beta : ℝ) (energy weight : Nat → ℝ) (n : Nat) :
    (∀ k, k < n + 1 → exp_argument Real.exp minus_beta energy weight (n + 1) k ≤ 0)
    ∧ (∃ k, k < n + 1 ∧ exp_argument Real.exp minus_beta energy weight (n + 1) k = 0)
    ∧ 1 ≤ (selector Real.exp minus_beta energy weight (n + 1)).usum
    ∧ (selector Real.exp minus_beta energy weight (n + 1)).usum ≤ ((n + 1 : Nat) : ℝ) := by
  obtain ⟨-, hle, ⟨j, hj, hjeq⟩, -⟩ := log_weights_loop minus_beta energy weight n
  have harg := exp_argument_eq Real.exp minus_beta energy weight n
  have hsum : (selector Real.exp minus_beta energy weight (n + 1)).usum
      = ∑ k in Finset.range (n + 1),
          Real.exp (exp_argument Real.exp minus_beta energy weight (n + 1) k) := by
    rw [(selector_closed Real.exp minus_beta energy weight n).2.1]
    exact Finset.sum_congr rfl (fun k hk => by rw [harg k (Finset.mem_range.mp hk)])
  have hnonpos : ∀ k, k < n + 1 →
      exp_argument Real.exp minus_beta energy weight (n + 1) k ≤ 0 := by
    intro k hk
    rw [harg k hk]
    exact sub_nonpos.mpr (hle k hk)
  have hzero : exp_argument Real.exp minus_beta energy weight (n + 1) j = 0 := by
    rw [harg j hj, hjeq]; exact sub_self _
  refine ⟨hnonpos, ⟨j, hj, hzero⟩, ?_, ?_⟩
  · rw [hsum]
    have h1 : Real.exp (exp_argument Real.exp minus_beta energy weight (n + 1) j) = 1 := by
      rw [hzero, Real.exp_zero]
    rw [← h1]
    exact Finset.single_le_sum
      (f := fun k => Real.exp (exp_argument Real.exp minus_beta energy weight (n + 1) k))
      (fun k _ => (Real.exp_pos _).le) (Finset.mem_range.mpr hj)
  · rw [hsum]
    calc ∑ k in Finset.range (n + 1),
            Real.exp (exp_argument Real.exp minus_beta energy weight (n + 1) k)
        ≤ ∑ _k in Finset.range (n + 1), (1 : ℝ) :=
          Finset.sum_le_sum (fun k hk =>
            Real.exp_le_one_iff.mpr (hnonpos k (Finset.mem_range.mp hk)))
      _ = ((n + 1 : Nat) : ℝ) := by simp

/-- Over the reals the `P[k]` are a probability vector. -/
theorem real_probabilities (minus_beta : ℝ) (energy weight : Nat → ℝ) (n : Nat) :
    (∀ k, 0 ≤ probabilities Real.exp minus_beta energy weight (n + 1) k
        ∧ probabilities Real.exp minus_beta energy weight (n + 1) k ≤ 1)
    ∧ ∑ k in Finset.range (n + 1),
        probabilities Real.exp minus_beta energy weight (n + 1) k = 1 := by
  obtain ⟨-, hsum, hP⟩ := selector_closed Real.exp minus_beta energy weight n
  obtain ⟨-, -, h1, -⟩ := real_exponents minus_beta energy weight n
  rw [hsum] at h1
  have hpos : 0 < ∑ j in Finset.range (n + 1), Real.exp (logw minus_beta energy weight j
      - (log_weights minus_beta energy weight (n + 1)).umax) := lt_of_lt_of_le one_pos h1
  constructor
  · intro k
    rw [hP k]
    by_cases hk : k < n + 1
    · rw [if_pos hk]
      refine ⟨div_nonneg (Real.exp_pos _).le hpos.le, (div_le_one hpos).mpr ?_⟩
      exact Finset.single_le_sum
        (f := fun j => Real.exp (logw minus_beta energy weight j
          - (log_weights minus_beta energy weight (n + 1)).umax))
        (fun j _ => (Real.exp_pos _).le) (Finset.mem_range.mpr hk)
    · rw [if_neg hk]; exact ⟨le_refl 0, zero_le_one⟩
  · have : ∀ k ∈ Finset.range (n + 1),
        probabilities Real.exp minus_beta energy weight (n + 1) k
          = Real.exp (logw minus_beta energy weight k
              - (log_weights minus_beta energy weight (n + 1)).umax)
            / ∑ j in Finset.range (n + 1), Real.exp (logw minus_beta energy weight j
                - (log_weights minus_beta energy weight (n + 1)).umax) := by
      intro k hk
      rw [hP k, if_pos (Finset.mem_range.mp hk)]
    rw [Finset.sum_congr rfl this, ← Finset.sum_div]
    exact div_self hpos.ne'

end RealSelection

/-! ## Node selection: distribution, walk, shift invariance, exponent bounds -/

/-- C1: for a ladder of `N ≥ 1` nodes and real energies and weights, the probabilities
`end_of_step` computes are `P[k] = exp(u[k] - umax) / Σ_j exp(u[j] - umax)` with
`u[k] = minus_beta*energy[k] + weight[k]` and `umax` the maximum of the `u[j]` (which is
the value the code holds in `umax`); each `P[k]` lies in `[0,1]` and they sum to `1`. -/
theorem C1_probabilities_softmax (N : Nat) (hN : 1 ≤ N) (minus_beta : ℝ)
    (energy weight : Nat → ℝ) :
    ∃ umax : ℝ,
      umax = (Finset.range N).sup'
          (Finset.nonempty_range_iff.mpr (Nat.one_le_iff_ne_zero.mp hN))
          (fun j => minus_beta * energy j + weight j)
      ∧ (selector Real.exp minus_beta energy weight N).umax = umax
      ∧ (∀ k, k < N → probabilities Real.exp minus_beta energy weight N k
            = Real.exp (minus_beta * energy k + weight k - umax)
              / ∑ j in Finset.range N, Real.exp (minus_beta * energy j + weight j - umax))
      ∧ (∀ k, k < N → 0 ≤ probabilities Real.exp minus_beta energy weight N k
            ∧ probabilities Real.exp minus_beta energy weight N k ≤ 1)
      ∧ ∑ k in Finset.range N, probabilities Real.exp minus_beta energy weight N k = 1 := by
  obtain ⟨n, rfl⟩ : ∃ n, N = n + 1 := ⟨N - 1, by omega⟩
  obtain ⟨hmax, -, hP⟩ := selector_closed Real.exp minus_beta energy weight n
  obtain ⟨hbound, hone⟩ := real_probabilities minus_beta energy weight n
  have humax : (log_weights minus_beta energy weight (n + 1)).umax
      = (Finset.range (n + 1)).sup'
          (Finset.nonempty_range_iff.mpr (Nat.one_le_iff_ne_zero.mp hN))
          (fun j => minus_beta * energy j + weight j) :=
    log_weights_umax minus_beta energy weight (n + 1) _
  refine ⟨_, rfl, by rw [hmax, humax], ?_, fun k _ => hbound k, hone⟩
  intro k hk
  rw [hP k, if_pos hk, humax]
  rfl

/-- Witness of C1 on the three-node scenario. -/
theorem C1_probabilities_softmax_witness :
    1 ≤ 3 ∧ ∑ k in Finset.range 3,
      probabilities Real.exp (-1) scenario_energy scenario_weight 3 k = 1 :=
  ⟨by decide,
    (C1_probabilities_softmax 3 (by decide) (-1) scenario_energy
      scenario_weight).choose_spec.2.2.2.2⟩

section Transitions

variable {α : Type}

theorem change_node_current (lib : CLib α) (node : Int) (s : State α) :
    (change_node lib node s).1.current_node = node := by
  unfold change_node
  by_cases h : s.downhill = true <;> simp [h]

theorem change_node_gridsize (lib : CLib α) (node : Int) (s : State α) :
    (change_node lib node s).1.gridsize = s.gridsize := by
  unfold change_node
  by_cases h : s.downhill = true <;> simp [h]

theorem change_node_downhill (lib : CLib α) (node : Int) (s : State α) :
    (change_node lib node s).1.downhill
      = if s.downhill then decide (node ≠ 0) else decide (node = s.gridsize - 1) := by
  unfold change_node
  by_cases h : s.downhill = true <;> simp [h]

/-- Intermediate nodes keep a raised flag raised. -/
theorem change_nodes_intermediate (lib : CLib α) (nodes : List Int) :
    ∀ s : State α, s.downhill = true → (∀ k ∈ nodes, 0 < k ∧ k < s.gridsize - 1) →
      (change_nodes lib nodes s).downhill = true
        ∧ (change_nodes lib nodes s).gridsize = s.gridsize := by
  induction nodes with
  | nil => intro s hs _; exact ⟨hs, rfl⟩
  | cons k ks ih =>
    intro s hs hk
    have hk0 := hk k (List.mem_cons_self k ks)
    have hd : (change_node lib k s).1.downhill = true := by
      rw [change_node_downhill, hs]
      simp
      omega
    have hg := change_node_gridsize lib k s
    obtain ⟨h1, h2⟩ := ih (change_node lib k s).1 hd
      (fun j hj => by rw [hg]; exact hk j (List.mem_cons_of_mem k hj))
    exact ⟨h1, by rw [← hg]; exact h2⟩

end Transitions

/-- C4: starting from `current_node = 0` with `downhill = false`, `change_node(gridsize-1)`
leaves `downhill = true`; the flag stays `true` over any intermediate nodes visited next,
and a later `change_node(0)` leaves `downhill = false`; and for an intermediate node `k`,
`0 < k < gridsize-1`, `change_node(k)` sets `current_node = k` and leaves `downhill` at the
value it had before the call. -/
theorem C4_downhill_flag_law {α : Type} (lib : CLib α) (s : State α)
    (hnode : s.current_node = 0) (hflag : s.downhill = false) :
    (change_node lib (s.gridsize - 1) s).1.downhill = true
    ∧ (change_node lib 0 (change_node lib (s.gridsize - 1) s).1).1.downhill = false
    ∧ (∀ nodes : List Int, (∀ k ∈ nodes, 0 < k ∧ k < s.gridsize - 1) →
        (change_nodes lib ((s.gridsize - 1) :: nodes) s).downhill = true
        ∧ (change_node lib 0 (change_nodes lib ((s.gridsize - 1) :: nodes) s)).1.downhill
            = false)
    ∧ (∀ (t : State α) (k : Int), 0 < k → k < t.gridsize - 1 →
        (change_node lib k t).1.current_node = k
        ∧ (change_node lib k t).1.downhill = t.downhill) := by
  have _ := hnode
  have htop : (change_node lib (s.gridsize - 1) s).1.downhill = true := by
    rw [change_node_downhill, hflag]; simp
  refine ⟨htop, ?_, ?_, ?_⟩
  · rw [change_node_downhill, htop]; simp
  · intro nodes hnodes
    have hg := change_node_gridsize lib (s.gridsize - 1) s
    obtain ⟨h1, -⟩ := change_nodes_intermediate lib nodes
      (change_node lib (s.gridsize - 1) s).1 htop (fun k hk => by rw [hg]; exact hnodes k hk)
    have h1' : (change_nodes lib ((s.gridsize - 1) :: nodes) s).downhill = true := h1
    refine ⟨h1', ?_⟩
    rw [change_node_downhill, h1']; simp
  · intro t k hk0 hk1
    refine ⟨change_node_current lib k t, ?_⟩
    rw [change_node_downhill]
    by_cases ht : t.downhill = true
    · rw [ht]; simp; omega
    · have ht' : t.downhill = false := by simpa using ht
      rw [ht']; simp; omega

/-- Witness of C4: the sampler of the three-node scenario at node 0 with the flag down. -/
theorem C4_downhill_flag_law_witness :
    (scenario_state 0 none : State ℚ).current_node = 0
    ∧ (scenario_state 0 none : State ℚ).downhill = false
    ∧ (change_node ⟨fun _ => 1, sprintf_18_16f, fun _ => ""⟩ 0
        (change_node ⟨fun _ => 1, sprintf_18_16f, fun _ => ""⟩
          ((scenario_state 0 none : State ℚ).gridsize - 1)
          (scenario_state 0 none : State ℚ)).1).1.downhill = false :=
  ⟨rfl, rfl,
    (C4_downhill_flag_law ⟨fun _ => 1, sprintf_18_16f, fun _ => ""⟩
      (scenario_state 0 none : State ℚ) rfl rfl).2.1⟩

/-! ## The sampling event -/

section SamplingEvent

variable {α : Type} [LinearOrderedField α]

end SamplingEvent

section PipelineCalls

variable {α : Type}

theorem change_node_calls (lib : CLib α) (node : Int) (s : State α) :
    (change_node lib node s).2
      = [Call.modify_params (lib.fmt_18_16f (s.lambdanode node.toNat)), Call.reinit] := by
  unfold change_node
  by_cases h : s.downhill = true <;> simp [h]

end PipelineCalls

section Agreement

end Agreement

section ConstructorChecks

variable {α : Type} [LinearOrderedField α] [FloorRing α]

theorem to_int_nonpos (v : α) (hv : v ≤ 0) : to_int v ≤ 0 := by
  unfold to_int
  split_ifs with h
  · have : v = 0 := le_antisymm hv h
    subst this
    simp
  · exact Int.ceil_le.mpr (by simpa using hv)

/-- A keyword clause the loop of lines 79-95 accepts starts with `dump`, has an interval
and a path, and its interval converts to a positive integer. -/
theorem parse_keywords_ok (numeric : String → Option α) (me : Nat) (kw : String)
    (rest : List String) (st res : Int × Option String)
    (h : parse_keywords numeric me (kw :: rest) st = Except.ok res) :
    kw = "dump" ∧ ∃ a path rest', rest = a :: path :: rest'
      ∧ ∃ v, numeric a = some v ∧ 0 < to_int v := by
  unfold parse_keywords at h
  by_cases hkw : kw = "dump"
  · rw [if_pos hkw] at h
    refine ⟨hkw, ?_⟩
    split at h
    · rename_i a path rest'
      refine ⟨a, path, rest', rfl, ?_⟩
      split at h
      · exact absurd h (by simp)
      · rename_i v hv
        refine ⟨v, hv, ?_⟩
        by_contra hneg
        simp only [not_lt] at hneg
        simp [hneg] at h
    · exact absurd h (by simp)
  · rw [if_neg hkw] at h
    exact absurd h (by simp)

/-- What the constructor has checked when it returns a sampler. -/
theorem construct_ok (numeric : String → Option α) (boltz : α) (me : Nat) (gridsize : Int)
    (arg : List String) (s : State α)
    (h : construct numeric boltz me gridsize arg = Except.ok s) :
    gridsize ≠ 0 ∧ 7 ≤ arg.length
    ∧ (∃ v, numeric (arg.getD 3 "") = some v ∧ 0 < to_int v)
    ∧ (∃ v, numeric (arg.getD 4 "") = some v ∧ 0 < v)
    ∧ (∃ v, numeric (arg.getD 5 "") = some v ∧ 0 < to_int v)
    ∧ (∃ res, parse_keywords numeric me (arg.drop 7) (0, none) = Except.ok res) := by
  unfold construct at h
  simp only [] at h
  split_ifs at h with h1 h2
  split at h
  · exact absurd h (by simp)
  rename_i v3 hv3
  split_ifs at h with h3
  split at h
  · exact absurd h (by simp)
  rename_i v4 hv4
  split_ifs at h with h4
  split at h
  · exact absurd h (by simp)
  rename_i v5 hv5
  split_ifs at h with h5
  split at h
  · exact absurd h (by simp)
  rename_i v6 hv6
  split at h
  · exact absurd h (by simp)
  rename_i idump ee_file hres
  exact ⟨h1, by omega, ⟨v3, hv3, by omega⟩, ⟨v4, hv4, not_le.mp h4⟩, ⟨v5, hv5, by omega⟩,
    ⟨_, hres⟩⟩

/-- The configurations the constructor rejects: a zero ladder, fewer than seven words, a
non-positive sampling interval or seed, and a first keyword clause that is not `dump`, lacks
its interval or path, or has a non-positive interval. -/
theorem construct_rejects (numeric : String → Option α) (boltz : α) (me : Nat)
    (gridsize : Int) (arg : List String)
    (h : gridsize = 0 ∨ arg.length < 7
      ∨ (∃ v, numeric (arg.getD 3 "") = some v ∧ v ≤ 0)
      ∨ (∃ v, numeric (arg.getD 5 "") = some v ∧ v ≤ 0)
      ∨ (∃ kw rest, arg.drop 7 = kw :: rest ∧ kw ≠ "dump")
      ∨ (∃ rest, arg.drop 7 = "dump" :: rest ∧ rest.length < 2)
      ∨ (∃ a rest v, arg.drop 7 = "dump" :: a :: rest ∧ numeric a = some v ∧ v ≤ 0)) :
    ∃ msg, construct numeric boltz me gridsize arg = Except.error msg := by
  cases hc : construct numeric boltz me gridsize arg with
  | error msg => exact ⟨msg, rfl⟩
  | ok s =>
    exfalso
    obtain ⟨h1, h2, ⟨v3, hv3, hp3⟩, -, ⟨v5, hv5, hp5⟩, ⟨res, hres⟩⟩ :=
      construct_ok numeric boltz me gridsize arg s hc
    rcases h with h | h | ⟨v, hv, hle⟩ | ⟨v, hv, hle⟩ | ⟨kw, rest, hd, hkw⟩ | ⟨rest, hd, hlen⟩
      | ⟨a, rest, v, hd, hv, hle⟩
    · exact h1 h
    · omega
    · rw [hv3] at hv
      cases hv
      have := to_int_nonpos v3 hle
      omega
    · rw [hv5] at hv
      cases hv
      have := to_int_nonpos v5 hle
      omega
    · rw [hd] at hres
      exact hkw (parse_keywords_ok numeric me kw rest _ res hres).1
    · rw [hd] at hres
      obtain ⟨-, a, path, rest', hrest, -⟩ := parse_keywords_ok numeric me _ rest _ res hres
      rw [hrest] at hlen
      simp at hlen
      omega
    · rw [hd] at hres
      obtain ⟨-, a', path, rest', hrest, v', hv', hpos⟩ :=
        parse_keywords_ok numeric me _ (a :: rest) _ res hres
      have ha : a = a' := by
        have := List.cons.inj hrest
        exact this.1
      subst ha
      rw [hv] at hv'
      cases hv'
      have := to_int_nonpos v hle
      omega

end ConstructorChecks

theorem change_node_ee_file {α : Type} (lib : CLib α) (node : Int) (s : State α) :
    (change_node lib node s).1.ee_file = s.ee_file
    ∧ (change_node lib node s).1.idump = s.idump := by
  unfold change_node
  by_cases h : s.downhill = true <;> simp [h]

section LogRecords

variable {α : Type} [LinearOrderedField α]

/-- Lines 309-315: a sampling event leaves a closed log file closed, appends nothing when
the timestep is not a multiple of `idump`, and appends exactly one record when it is. -/
theorem after_bcast_log (lib : CLib α) (eng : Engine α) (energy : Nat → α)
    (regrids : List (Nat → α)) (new_node : Int) (s : State α) :
    (s.ee_file = none → (after_bcast lib eng energy regrids new_node s).1.ee_file = none)
    ∧ (∀ text, s.ee_file = some text → Int.tmod eng.ntimestep s.idump ≠ 0 →
        (after_bcast lib eng energy regrids new_node s).1.ee_file = some text)
    ∧ (∀ text, s.ee_file = some text → Int.tmod eng.ntimestep s.idump = 0 →
        ∃ (logged : Nat → α) (t : State α),
          (after_bcast lib eng energy regrids new_node s).1.ee_file
            = some (text ++ log_record lib eng.ntimestep eng.pe_scalar logged t)) := by
  obtain ⟨hfile, hdump⟩ := change_node_ee_file lib new_node s
  refine ⟨?_, ?_, ?_⟩
  · intro hnone
    unfold after_bcast
    by_cases h : new_node = s.current_node
    · simp [h, hnone]
    · rw [hnone] at hfile
      simp [h, hfile]
  · intro text htext hmod
    unfold after_bcast
    by_cases h : new_node = s.current_node
    · simp [h, htext, hmod]
    · rw [htext] at hfile
      rw [← hdump] at hmod
      simp [h, hfile, hmod]
  · intro text htext hmod
    unfold after_bcast
    by_cases h : new_node = s.current_node
    · exact ⟨energy, s, by simp [h, htext, hmod]⟩
    · rw [htext] at hfile
      rw [← hdump] at hmod
      exact ⟨read_energy_grid eng (change_node lib new_node s).1.gridsize regrids,
        (change_node lib new_node s).1, by simp [h, hfile, hmod]⟩

end LogRecords

/-! ## Construction, log header, parameter buffer -/

/-- C5 (evaluation): the command `fix 1 all softcore/ee 10 1.0 12345 -300.0`, whose
temperature is negative, on a three-node ladder is accepted by the constructor: it returns
a sampler, with `nevery = 10`, `seed = 12345`, no logging, and a positive `minus_beta`. -/
theorem C5_negative_temperature_is_accepted :
    ∃ s, construct numeric_table (1 : ℚ) 0 3 negative_temperature_command = Except.ok s
      ∧ s.nevery = 10 ∧ s.seed = 12345 ∧ s.minus_beta = 1 / 300 ∧ s.idump = 0 := by
  simp [construct, negative_temperature_command, numeric_table, to_int, parse_keywords]
  norm_num

/-- C6 (evaluation): on a ladder of three nodes the header `init` writes to the log file
is three lines, the line break following each `energy[k]` column, not one line; only on a
ladder of one node is it a single line. -/
theorem C6_header_breaks_after_each_column :
    init_header 3 = "step node lambda downhill energy[0]\n energy[1]\n energy[2]\n"
    ∧ init_header 1 = "step node lambda downhill energy[0]\n"
    ∧ ((init (⟨fun _ => 1, sprintf_18_16f, fun _ => ""⟩ : CLib ℚ) scenario_weight
          scenario_weight (scenario_state 0 (some ""))).1.ee_file
        = some "step node lambda downhill energy[0]\n energy[1]\n energy[2]\n")
    ∧ (init_header 3).toList.count '\n' = 3 := by
  refine ⟨by decide, by decide, ?_, by decide⟩
  have h : init_header 3 = "step node lambda downhill energy[0]\n energy[1]\n energy[2]\n" := by
    decide
  simp [init, change_node, scenario_state, h]

theorem pad_left_length (width : Nat) (fill : Char) (body : String) :
    width ≤ (pad_left width fill body).length := by
  unfold pad_left
  rw [String.length_append]
  show width ≤ (List.replicate (width - body.length) fill).length + body.length
  rw [List.length_replicate]
  omega

/-- C10 (evaluation): the text `"%18.16f"` produces has at least 18 characters for every
value, so with its terminating NUL it needs more than the 18 bytes `init` allocates; for
the coupling value `0` the text is `0.0000000000000000`, 19 bytes with the NUL. -/
theorem C10_formatted_lambda_exceeds_buffer :
    (∀ x : ℚ, lambda_arg3_size < sprintf_bytes (sprintf_18_16f x))
    ∧ sprintf_18_16f 0 = "0.0000000000000000"
    ∧ sprintf_bytes (sprintf_18_16f 0) = 19
    ∧ lambda_arg3_size = 18 := by
  have h0 : sprintf_18_16f 0 = "0.0000000000000000" := by
    have h : round_half_even (|(0 : ℚ)| * 10 ^ 16) = 0 := by
      simp [round_half_even]
    unfold sprintf_18_16f
    simp only [h, lt_irrefl, if_false]
    decide
  refine ⟨?_, h0, by rw [h0]; decide, rfl⟩
  intro x
  have := pad_left_length 18 ' '
    ((if x < 0 then "-" else "")
      ++ String.mk (Nat.toDigits 10 (round_half_even (|x| * 10 ^ 16) / 10 ^ 16)) ++ "."
      ++ pad_left 16 '0'
          (String.mk (Nat.toDigits 10 (round_half_even (|x| * 10 ^ 16) % 10 ^ 16))))
  unfold sprintf_bytes lambda_arg3_size
  unfold sprintf_18_16f
  exact Nat.lt_succ_of_le this

end FixSoftcoreEE
